import Mathlib

/-!
Verification development for the crypto-sqlite-pipeline repository.

The TypeScript sources are shallowly embedded: JavaScript numbers are
modelled as rationals (all comparisons and branch decisions relevant to the
theorems below are exact in IEEE-754 binary64 at the inputs used), millisecond
timestamps and row ids as integers, SQL tables as Lean lists of row
structures, and the transcendental primitives Math.sqrt and Math.log as
function parameters.  Fallible code is modelled with Except; the per-request
HTTP layer is modelled as a function from attempt number to outcome.
-/

namespace CryptoPipeline

/-! ## Time and interval model (src/utils.ts) -/

/-- utils.ts INTERVAL_MS: the fixed interval-code table. -/
def INTERVAL_MS : String → Option Int
  | "1m" => some 60000
  | "3m" => some 180000
  | "5m" => some 300000
  | "15m" => some 900000
  | "30m" => some 1800000
  | "1h" => some 3600000
  | "2h" => some 7200000
  | "4h" => some 14400000
  | "6h" => some 21600000
  | "8h" => some 28800000
  | "12h" => some 43200000
  | "1d" => some 86400000
  | "3d" => some 259200000
  | "1w" => some 604800000
  | _ => none

/-- utils.ts floorToInterval: Math.floor(ms / intervalMs) * intervalMs.
    Math.floor of a real quotient is integer floor division (intervalMs > 0
    at every call site; the source throws on intervalMs <= 0). -/
def floorToInterval (ms intervalMs : Int) : Int :=
  (Int.fdiv ms intervalMs) * intervalMs

/-- utils.ts clamp. -/
def clamp (n mn mx : ℚ) : ℚ :=
  if n < mn then mn else if n > mx then mx else n

/-! ## Gap detection (findGaps in src/verify.ts and src/repair.ts) -/

structure Gap where
  startMissing : Int
  endMissing : Int
  missingBars : Int
deriving DecidableEq, Repr

/-- verify.ts findGaps: walk consecutive pairs of the ascending open_time
    list; when next - prev > step report the missing window.
    Math.floor(diff / step) is floor division (step > 0 at call sites). -/
def findGaps : List Int → Int → List Gap
  | [], _ => []
  | [_], _ => []
  | prev :: next :: rest, step =>
    let diff := next - prev
    (if diff > step then
      [⟨prev + step, next - step, Int.fdiv diff step - 1⟩]
    else []) ++ findGaps (next :: rest) step

/-- repair.ts MIN_GAP_BARS_TO_REPAIR. -/
def MIN_GAP_BARS_TO_REPAIR : Int := 1

/-- repair.ts findGaps: same walk, but a gap is kept only when
    missingBars >= MIN_GAP_BARS_TO_REPAIR. -/
def findGapsRepair : List Int → Int → List Gap
  | [], _ => []
  | [_], _ => []
  | prev :: next :: rest, step =>
    let diff := next - prev
    (if diff > step then
      let missingBars := Int.fdiv diff step - 1
      if missingBars ≥ MIN_GAP_BARS_TO_REPAIR then
        [⟨prev + step, next - step, missingBars⟩]
      else []
    else []) ++ findGapsRepair (next :: rest) step

/-! ## Wilder RSI (src/indicators.ts rsiWilder) -/

/-- indicators.ts: gain of a close-to-close change. -/
def gainOf (ch : ℚ) : ℚ := if ch > 0 then ch else 0

/-- indicators.ts: loss of a close-to-close change. -/
def lossOf (ch : ℚ) : ℚ := if ch < 0 then -ch else 0

/-- indicators.ts: rs = avgLoss === 0 ? Infinity : avgGain / avgLoss, then
    100 - 100 / (1 + rs).  When rs is Infinity the JavaScript expression
    evaluates to exactly 100, which is the value modelled here. -/
def rsiPoint (avgGain avgLoss : ℚ) : ℚ :=
  if avgLoss = 0 then 100 else 100 - 100 / (1 + avgGain / avgLoss)

/-- indicators.ts rsiWilder inner smoothing loop over the remaining
    close-to-close changes, carrying the Wilder-smoothed averages. -/
def rsiSmooth (period : ℕ) (avgGain avgLoss : ℚ) : List ℚ → List ℚ
  | [] => []
  | ch :: rest =>
    let g := gainOf ch
    let l := lossOf ch
    let aG := (avgGain * ((period : ℚ) - 1) + g) / (period : ℚ)
    let aL := (avgLoss * ((period : ℚ) - 1) + l) / (period : ℚ)
    rsiPoint aG aL :: rsiSmooth period aG aL rest

/-- indicators.ts rsiWilder: outputs stay null through index period - 1;
    the seed RSI is emitted at index period from the first period changes,
    then the inner loop Wilder-smooths to the end.  If the input has at most
    period changes (or period = 0) the outer loop never reaches the emit
    branch and every output is null. -/
def rsiWilder (close : List ℚ) (period : ℕ) : List (Option ℚ) :=
  let diffs := (close.zip close.tail).map fun p => p.2 - p.1
  if 1 ≤ period ∧ period ≤ diffs.length then
    let seed := diffs.take period
    let avgGain := (seed.map gainOf).sum / (period : ℚ)
    let avgLoss := (seed.map lossOf).sum / (period : ℚ)
    (List.replicate period none) ++ [some (rsiPoint avgGain avgLoss)]
      ++ (rsiSmooth period avgGain avgLoss (diffs.drop period)).map some
  else close.map fun _ => none

/-! ## Backoff (src/binance.ts backoffWaitMs) -/

structure RetryCfg where
  baseMs : ℚ
  maxMs : ℚ
  maxRetries : ℕ
deriving DecidableEq, Repr

/-- binance.ts backoffWaitMs.  The Retry-After header is modelled as an
    Option of its parsed numeric value (none covers both a missing header and
    an unparseable one).  The Math.random() draw u in [0, 1) is a parameter:
    jitter = u * exp * 0.5 where exp = min(maxMs, baseMs * 2 ^ attempt), and
    the returned wait is clamp(exp * 0.75 + jitter, baseMs, maxMs). -/
def backoffWaitMs (retry : RetryCfg) (attempt : ℕ) (retryAfter : Option ℚ)
    (u : ℚ) : ℚ :=
  match retryAfter with
  | some ra => clamp (ra * 1000) retry.baseMs retry.maxMs
  | none =>
    let e := min retry.maxMs (retry.baseMs * 2 ^ attempt)
    let jitter := u * e * (1 / 2)
    clamp (e * (3 / 4) + jitter) retry.baseMs retry.maxMs

/-- Modelled from the spec (section 4.2 retry policy): the sleep the claim
    states, clamp(baseMs * 2 ^ attempt * (0.75 + u), baseMs, maxMs) with the
    jitter draw u in [0, 0.5). -/
def specSleepMs (retry : RetryCfg) (attempt : ℕ) (u : ℚ) : ℚ :=
  clamp (retry.baseMs * 2 ^ attempt * (3 / 4 + u)) retry.baseMs retry.maxMs

/-! ## Token bucket (src/binance.ts TokenBucket) -/

structure TokenBucket where
  capacity : ℚ
  tokens : ℚ
  refillPerMs : ℚ
deriving DecidableEq, Repr

/-- binance.ts TokenBucket constructor: starts full, refilling at
    tokensPerMinute / 60000 tokens per millisecond. -/
def TokenBucket.create (tokensPerMinute : ℚ) : TokenBucket :=
  ⟨tokensPerMinute, tokensPerMinute, tokensPerMinute / 60000⟩

/-- binance.ts TokenBucket.refill with elapsed wall-clock delta
    (now - lastRefill): no change when delta <= 0, otherwise add
    delta * refillPerMs capped at capacity. -/
def TokenBucket.refill (b : TokenBucket) (delta : ℚ) : TokenBucket :=
  if delta ≤ 0 then b
  else { b with tokens := min b.capacity (b.tokens + delta * b.refillPerMs) }

/-- binance.ts TokenBucket.take, one iteration of its polling loop: refill,
    then admit (decrement by exactly 1) when at least one token is available,
    otherwise leave the bucket unchanged and report not admitted. -/
def TokenBucket.poll (b : TokenBucket) (delta : ℚ) : TokenBucket × Bool :=
  let b := b.refill delta
  if 1 ≤ b.tokens then ({ b with tokens := b.tokens - 1 }, true)
  else (b, false)

/-- A whole schedule of polling iterations, each with its elapsed delta. -/
def TokenBucket.runPolls (b : TokenBucket) : List ℚ → TokenBucket
  | [] => b
  | d :: ds => TokenBucket.runPolls (b.poll d).1 ds

/-- The bucket invariant of the claim: tokens stays within [0, capacity]. -/
def TokenBucket.Inv (b : TokenBucket) : Prop :=
  0 ≤ b.tokens ∧ b.tokens ≤ b.capacity

/-! ## Transactions (src/db.ts tx) -/

/-- db.ts tx: fn runs against the store inside BEGIN IMMEDIATE; on success
    commit unless dryRun === true, in which case roll back but still return
    fn's value; on exception roll back and re-raise.  The store is passed
    explicitly: fn maps a store to an updated store plus a value-or-error;
    rollback restores the store as of BEGIN.  dryRun is Option Bool because
    the TypeScript parameter is optional and compared with === true. -/
def tx {σ α ε : Type} (fn : σ → σ × Except ε α) (dryRun : Option Bool)
    (s : σ) : σ × Except ε α :=
  let r := fn s
  match r.2 with
  | .ok v => if dryRun = some true then (s, .ok v) else (r.1, .ok v)
  | .error e => (s, .error e)

/-! ## HTTP client retry loop (src/binance.ts getKlines) -/

structure Kline where
  openTime : Int
  «open» : ℚ
  high : ℚ
  low : ℚ
  close : ℚ
  volume : ℚ
  closeTime : Int
  quoteAssetVolume : ℚ
  numberOfTrades : Int
  takerBuyBaseVolume : ℚ
  takerBuyQuoteVolume : ℚ
deriving DecidableEq, Repr

/-- One HTTP exchange as seen by doReq: a 2xx response with a parsed kline
    array, a non-2xx status with its body, or a network/abort failure. -/
inductive HttpOutcome where
  | ok (klines : List Kline)
  | status (code : ℕ) (body : String)
  | netError (msg : String)
deriving DecidableEq, Repr

/-- The errors doReq throws: the "418"/"429" transient throws, the
    non-2xx throw carrying status and body, and network/abort errors. -/
inductive ReqError where
  | transient418
  | transient429
  | permanent (code : ℕ) (body : String)
  | net (msg : String)
deriving DecidableEq, Repr

/-- binance.ts doReq, as the mapping from the HTTP outcome to the result or
    thrown error: 418 and 429 sleep and throw their transient markers, any
    other non-2xx throws an error carrying the status and response body, a
    2xx returns the parsed klines. -/
def doReq (resp : HttpOutcome) : Except ReqError (List Kline) :=
  match resp with
  | .ok ks => .ok ks
  | .status c body =>
    if c = 418 then .error .transient418
    else if c = 429 then .error .transient429
    else .error (.permanent c body)
  | .netError m => .error (.net m)

/-- binance.ts getKlines retry loop.  responses gives the outcome of each
    doReq attempt (attempts numbered from 0); a is the number of attempts
    already made and rem = maxRetries - a the retries still allowed.  Any
    caught error is retried until the attempt counter exceeds maxRetries;
    returns the final result together with the total number of attempts. -/
def getKlinesGo (responses : ℕ → HttpOutcome) :
    ℕ → ℕ → Except ReqError (List Kline) × ℕ
  | a, 0 =>
    (match doReq (responses a) with
     | .ok ks => .ok ks
     | .error e => .error e, a + 1)
  | a, rem + 1 =>
    match doReq (responses a) with
    | .ok ks => (.ok ks, a + 1)
    | .error _ => getKlinesGo responses (a + 1) rem

/-- binance.ts getKlines: run the retry loop from attempt 0 with maxRetries
    retries allowed. -/
def getKlinesRun (responses : ℕ → HttpOutcome) (maxRetries : ℕ) :
    Except ReqError (List Kline) × ℕ :=
  getKlinesGo responses 0 maxRetries

/-! ## Indicator kernels (src/indicators.ts) -/

structure OHLCV where
  time : Int
  «open» : ℚ
  high : ℚ
  low : ℚ
  close : ℚ
  volume : ℚ
deriving DecidableEq, Repr

/-- indicators.ts ema recurrence for indices at and past the seed:
    next = v * k + prev * (1 - k). -/
def emaGo (k : ℚ) (prev : ℚ) : List ℚ → List ℚ
  | [] => []
  | v :: rest =>
    let nxt := v * k + prev * (1 - k)
    nxt :: emaGo k nxt rest

/-- indicators.ts ema: null below index period - 1, the simple average of
    the first period values as seed at period - 1, then the recurrence with
    k = alphaOverride when given, else 2 / (period + 1).  The source throws
    for period <= 0; every call site passes a positive constant, and the
    period = 0 case here falls into the all-null branch. -/
def ema (values : List ℚ) (period : ℕ) (alphaOverride : Option ℚ) :
    List (Option ℚ) :=
  let k := alphaOverride.getD (2 / ((period : ℚ) + 1))
  if 1 ≤ period ∧ period ≤ values.length then
    let seed := (values.take period).sum / (period : ℚ)
    (List.replicate (period - 1) none) ++ [some seed]
      ++ (emaGo k seed (values.drop period)).map some
  else values.map fun _ => none

/-- indicators.ts sma: the running-sum loop keeps exactly the trailing
    window sum, materialised here as the window mean directly (exact in ℚ).
    Null below index period - 1; period is a positive constant at every
    call site. -/
def sma (values : List ℚ) (period : ℕ) : List (Option ℚ) :=
  (List.range values.length).map fun i =>
    if period ≤ i + 1 then
      some (((values.drop (i + 1 - period)).take period).sum / (period : ℚ))
    else none

/-- indicators.ts stddev: population standard deviation of the trailing
    window around ma[i], skipped where ma[i] is null.  Math.sqrt is the
    abstract parameter sqrtQ. -/
def stddev (sqrtQ : ℚ → ℚ) (values : List ℚ) (period : ℕ)
    (ma : List (Option ℚ)) : List (Option ℚ) :=
  (List.range values.length).map fun i =>
    if period ≤ i + 1 then
      match ma.getD i none with
      | none => none
      | some m =>
        let win := (values.drop (i + 1 - period)).take period
        some (sqrtQ ((win.map fun v => (v - m) * (v - m)).sum / (period : ℚ)))
    else none

/-- indicators.ts: the true-range vector; tr[0] = high[0] - low[0], later
    indices take the max of range and the two close-relative moves. -/
def trueRanges (high low close : List ℚ) : List ℚ :=
  (List.range close.length).map fun i =>
    if i = 0 then high.getD 0 0 - low.getD 0 0
    else
      max (high.getD i 0 - low.getD i 0)
        (max (abs (high.getD i 0 - close.getD (i - 1) 0))
          (abs (low.getD i 0 - close.getD (i - 1) 0)))

/-- indicators.ts Wilder smoothing recurrence
    next = (prev * (period - 1) + t) / period. -/
def wilderGo (period : ℕ) (prev : ℚ) : List ℚ → List ℚ
  | [] => []
  | t :: rest =>
    let nxt := (prev * ((period : ℚ) - 1) + t) / (period : ℚ)
    nxt :: wilderGo period nxt rest

/-- indicators.ts atrWilder: null below period - 1, simple mean of the first
    period true ranges as seed, then Wilder smoothing. -/
def atrWilder (high low close : List ℚ) (period : ℕ) : List (Option ℚ) :=
  let tr := trueRanges high low close
  if 1 ≤ period ∧ period ≤ tr.length then
    let seed := (tr.take period).sum / (period : ℚ)
    (List.replicate (period - 1) none) ++ [some seed]
      ++ (wilderGo period seed (tr.drop period)).map some
  else close.map fun _ => none

/-- indicators.ts adxWilder inner DX computation from the smoothed sums. -/
def dxOf (tr14 p14 m14 : ℚ) : ℚ :=
  let plusDI := (p14 / tr14) * 100
  let minusDI := (m14 / tr14) * 100
  (abs (plusDI - minusDI) / (plusDI + minusDI)) * 100

/-- indicators.ts adxWilder DX loop for indices past period: update the
    smoothed sums by x - x / period + x_i, then emit DX. -/
def adxDxGo (period : ℕ) (trF pF mF : ℕ → ℚ) :
    ℕ → ℕ → ℚ → ℚ → ℚ → List ℚ
  | _, 0, _, _, _ => []
  | i, rem + 1, tr14, p14, m14 =>
    let tr14x := tr14 - tr14 / (period : ℚ) + trF i
    let p14x := p14 - p14 / (period : ℚ) + pF i
    let m14x := m14 - m14 / (period : ℚ) + mF i
    dxOf tr14x p14x m14x :: adxDxGo period trF pF mF (i + 1) rem tr14x p14x m14x

/-- indicators.ts adxWilder: directional movement, Wilder-smoothed sums
    seeded over indices 1..period, DX from index period on, then ADX as the
    mean of the first period DX values followed by Wilder smoothing.  When
    fewer than period DX values exist the seed loop never fires and the
    second loop starts from index 0 with a null prev, which JavaScript
    coerces to 0 — modelled by the wilderGo period 0 branch. -/
def adxWilder (high low close : List ℚ) (period : ℕ) : List (Option ℚ) :=
  let len := close.length
  let hi := fun i => high.getD i 0
  let lo := fun i => low.getD i 0
  let cl := fun i => close.getD i 0
  let upMove := fun i => hi i - hi (i - 1)
  let downMove := fun i => lo (i - 1) - lo i
  let pW := fun i => if i = 0 then 0
    else if upMove i > downMove i ∧ upMove i > 0 then upMove i else 0
  let mW := fun i => if i = 0 then 0
    else if downMove i > upMove i ∧ downMove i > 0 then downMove i else 0
  let trW := fun i => if i = 0 then 0
    else max (hi i - lo i)
      (max (abs (hi i - cl (i - 1))) (abs (lo i - cl (i - 1))))
  if 1 ≤ period ∧ period + 1 ≤ len then
    let tr14 := ((List.range period).map fun j => trW (j + 1)).sum
    let p14 := ((List.range period).map fun j => pW (j + 1)).sum
    let m14 := ((List.range period).map fun j => mW (j + 1)).sum
    let dxList := dxOf tr14 p14 m14 ::
      adxDxGo period trW pW mW (period + 1) (len - period - 1) tr14 p14 m14
    if 2 * period ≤ len then
      let seed := (dxList.take period).sum / (period : ℚ)
      (List.replicate (2 * period - 1) none) ++ [some seed]
        ++ (wilderGo period seed (dxList.drop period)).map some
    else
      (List.replicate period none) ++ (wilderGo period 0 dxList).map some
  else close.map fun _ => none

/-- indicators.ts macd: macd line where both EMAs exist; the signal line is
    the EMA of the macd line with nulls replaced by zero; histogram where
    both macd and signal exist. -/
def macdCalc (close : List ℚ) (fast slow signal : ℕ) :
    List (Option ℚ) × List (Option ℚ) × List (Option ℚ) :=
  let emaFast := ema close fast none
  let emaSlow := ema close slow none
  let macdLine := (emaFast.zip emaSlow).map fun p =>
    match p.1, p.2 with
    | some a, some b => some (a - b)
    | _, _ => none
  let signalLine := ema (macdLine.map fun v => v.getD 0) signal none
  let hist := (macdLine.zip signalLine).map fun p =>
    match p.1, p.2 with
    | some m, some s => some (m - s)
    | _, _ => none
  (macdLine, signalLine, hist)

structure IndicatorsOut where
  ema50 : List (Option ℚ)
  ema200 : List (Option ℚ)
  rsi14 : List (Option ℚ)
  atr14 : List (Option ℚ)
  adx14 : List (Option ℚ)
  vol_ma20 : List (Option ℚ)
  macd : List (Option ℚ)
  macd_signal : List (Option ℚ)
  macd_hist : List (Option ℚ)
  bb_sma20 : List (Option ℚ)
  bb_upper : List (Option ℚ)
  bb_lower : List (Option ℚ)
  pct_return_1 : List (Option ℚ)
  log_return_1 : List (Option ℚ)

/-- indicators.ts computeIndicators over the aligned OHLCV vectors; Math.sqrt
    and Math.log are the abstract parameters sqrtQ and logQ. -/
def computeIndicators (sqrtQ logQ : ℚ → ℚ) (series : List OHLCV) :
    IndicatorsOut :=
  let close := series.map (·.close)
  let high := series.map (·.high)
  let low := series.map (·.low)
  let volume := series.map (·.volume)
  let e50 := ema close 50 none
  let e200 := ema close 200 none
  let r14 := rsiWilder close 14
  let a14 := atrWilder high low close 14
  let x14 := adxWilder high low close 14
  let v20 := sma volume 20
  let m := macdCalc close 12 26 9
  let bbMid := sma close 20
  let bbStd := stddev sqrtQ close 20 bbMid
  let bbUpper := (bbMid.zip bbStd).map fun p =>
    match p.1, p.2 with
    | some mid, some s => some (mid + 2 * s)
    | _, _ => none
  let bbLower := (bbMid.zip bbStd).map fun p =>
    match p.1, p.2 with
    | some mid, some s => some (mid - 2 * s)
    | _, _ => none
  let pct := (List.range close.length).map fun i =>
    if i = 0 then none
    else if close.getD (i - 1) 0 = 0 then none
    else some (close.getD i 0 / close.getD (i - 1) 0 - 1)
  let logr := (List.range close.length).map fun i =>
    if i = 0 then none
    else if close.getD (i - 1) 0 = 0 then none
    else some (logQ (close.getD i 0 / close.getD (i - 1) 0))
  ⟨e50, e200, r14, a14, x14, v20, m.1, m.2.1, m.2.2, bbMid, bbUpper, bbLower,
    pct, logr⟩

/-! ## Storage façade (src/db.ts) -/

structure SymbolRow where
  id : Int
  symbol : String
  base_asset : String
  quote_asset : String
deriving DecidableEq, Repr

structure IntervalRow where
  id : Int
  code : String
  ms : Int
deriving DecidableEq, Repr

structure SeriesRow where
  id : Int
  symbol_id : Int
  interval_id : Int
deriving DecidableEq, Repr

structure CandleRow where
  series_id : Int
  open_time : Int
  «open» : ℚ
  high : ℚ
  low : ℚ
  close : ℚ
  volume : ℚ
  quote_asset_volume : ℚ
  trades : Int
  taker_buy_base_volume : ℚ
  taker_buy_quote_volume : ℚ
deriving DecidableEq, Repr

structure IndicatorRow where
  series_id : Int
  open_time : Int
  ema50 : Option ℚ
  ema200 : Option ℚ
  rsi14 : Option ℚ
  atr14 : Option ℚ
  adx14 : Option ℚ
  vol_ma20 : Option ℚ
  macd : Option ℚ
  macd_signal : Option ℚ
  macd_hist : Option ℚ
  bb_sma20 : Option ℚ
  bb_upper : Option ℚ
  bb_lower : Option ℚ
  pct_return_1 : Option ℚ
  log_return_1 : Option ℚ
deriving DecidableEq, Repr

structure SeriesStateRow where
  series_id : Int
  last_open_time : Option Int
  last_updated_at : Int
deriving DecidableEq, Repr

structure KnownGapRow where
  series_id : Int
  start_open_time : Int
  end_open_time : Int
deriving DecidableEq, Repr

/-- The embedded relational store: one list of rows per table, in insertion
    order (rowid order). -/
structure Store where
  symbols : List SymbolRow
  intervals : List IntervalRow
  series : List SeriesRow
  candles : List CandleRow
  indicators : List IndicatorRow
  series_state : List SeriesStateRow
  known_gaps : List KnownGapRow
deriving DecidableEq, Repr

def Store.empty : Store := ⟨[], [], [], [], [], [], []⟩

/-- AUTOINCREMENT ids: rows are never deleted, so the next id is one past
    the maximum existing id (ids start at 1). -/
def nextId (ids : List Int) : Int := ids.foldr max 0 + 1

/-- db.ts ensureSymbol: upsert on symbol, updating base_asset and
    quote_asset on conflict, then return the row id. -/
def ensureSymbol (st : Store) (symbol base quote : String) : Store × Int :=
  match st.symbols.find? (fun r => r.symbol == symbol) with
  | some r =>
    ({ st with symbols := st.symbols.map fun q =>
        if q.symbol == symbol then
          { q with base_asset := base, quote_asset := quote }
        else q }, r.id)
  | none =>
    let i := nextId (st.symbols.map (·.id))
    ({ st with symbols := st.symbols ++ [⟨i, symbol, base, quote⟩] }, i)

/-- db.ts ensureInterval: upsert on code, updating ms on conflict. -/
def ensureInterval (st : Store) (code : String) (ms : Int) : Store × Int :=
  match st.intervals.find? (fun r => r.code == code) with
  | some r =>
    ({ st with intervals := st.intervals.map fun q =>
        if q.code == code then { q with ms := ms } else q }, r.id)
  | none =>
    let i := nextId (st.intervals.map (·.id))
    ({ st with intervals := st.intervals ++ [⟨i, code, ms⟩] }, i)

/-- db.ts ensureSeries: insert-if-absent on (symbol_id, interval_id). -/
def ensureSeries (st : Store) (symbolId intervalId : Int) : Store × Int :=
  match st.series.find?
      (fun r => r.symbol_id == symbolId && r.interval_id == intervalId) with
  | some r => (st, r.id)
  | none =>
    let i := nextId (st.series.map (·.id))
    ({ st with series := st.series ++ [⟨i, symbolId, intervalId⟩] }, i)

/-- INSERT ... ON CONFLICT(series_id, open_time) DO UPDATE SET every
    non-key field to the excluded row: replace the row holding the
    conflicting key in place, else append. -/
def upsertRow {α : Type} (key : α → Int × Int) : List α → α → List α
  | [], r => [r]
  | q :: rest, r =>
    if key q = key r then r :: rest else q :: upsertRow key rest r

def candleKey (r : CandleRow) : Int × Int := (r.series_id, r.open_time)

def indicatorKey (r : IndicatorRow) : Int × Int := (r.series_id, r.open_time)

/-- db.ts upsertCandles. -/
def upsertCandles (st : Store) (rows : List CandleRow) : Store :=
  { st with candles := rows.foldl (upsertRow candleKey) st.candles }

/-- db.ts upsertIndicators. -/
def upsertIndicators (st : Store) (rows : List IndicatorRow) : Store :=
  { st with indicators := rows.foldl (upsertRow indicatorKey) st.indicators }

/-- db.ts getMaxOpenTime: SELECT MAX(open_time), NULL when no rows. -/
def getMaxOpenTime (st : Store) (seriesId : Int) : Option Int :=
  ((st.candles.filter (fun c => c.series_id == seriesId)).map
    (·.open_time)).max?

/-! ## Ingest engine (pipeline.ts bootstrapSeries and updateSeries) -/

def MAX_API_LIMIT : Int := 1000

def OVERLAP_BARS : Int := 600

/-- pipeline.ts mapToRows. -/
def mapToRows (seriesId : Int) (kl : List Kline) : List CandleRow :=
  kl.map fun k => ⟨seriesId, k.openTime, k.«open», k.high, k.low, k.close,
    k.volume, k.quoteAssetVolume, k.numberOfTrades, k.takerBuyBaseVolume,
    k.takerBuyQuoteVolume⟩

/-- pipeline.ts mapToOHLCV. -/
def mapToOHLCV (kl : List Kline) : List OHLCV :=
  kl.map fun k => ⟨k.openTime, k.«open», k.high, k.low, k.close, k.volume⟩

/-- The indicator write rows of one chunk: the source builds, for each index
    i, a row from ohlcvAll[i].time and the i-th entry of every kernel output;
    rendered as a simultaneous walk of the aligned vectors (the kernels all
    return vectors of the input length). -/
def indicatorRowsOf (seriesId : Int) :
    List OHLCV → List (Option ℚ) → List (Option ℚ) → List (Option ℚ) →
    List (Option ℚ) → List (Option ℚ) → List (Option ℚ) → List (Option ℚ) →
    List (Option ℚ) → List (Option ℚ) → List (Option ℚ) → List (Option ℚ) →
    List (Option ℚ) → List (Option ℚ) → List (Option ℚ) → List IndicatorRow
  | t :: ts, a1 :: r1, a2 :: r2, a3 :: r3, a4 :: r4, a5 :: r5, a6 :: r6,
    a7 :: r7, a8 :: r8, a9 :: r9, b1 :: s1, b2 :: s2, b3 :: s3, b4 :: s4,
    b5 :: s5 =>
    ⟨seriesId, t.time, a1, a2, a3, a4, a5, a6, a7, a8, a9, b1, b2, b3, b4,
      b5⟩ ::
      indicatorRowsOf seriesId ts r1 r2 r3 r4 r5 r6 r7 r8 r9 s1 s2 s3 s4 s5
  | _, _, _, _, _, _, _, _, _, _, _, _, _, _, _ => []

structure IngestParams where
  seriesId : Int
  intervalMs : Int
  start : Int
  endClosed : Int
  dryRun : Option Bool

structure LoopSt where
  store : Store
  cursor : Int

/-- One iteration of the bootstrap/update while-loop body: fetch the chunk
    over the overlap window, bail out advancing by one interval when empty,
    otherwise compute indicators over overlap plus chunk, keep only rows at
    or after the cursor (the source collects their indices; rendered as a
    filter of the zipped row pairs, elementwise identical), write both
    tables inside one transaction, and advance the cursor by the number of
    candle rows written (at least one interval). -/
def ingestStep (fetch : Int → Int → Int → List Kline) (sqrtQ logQ : ℚ → ℚ)
    (p : IngestParams) (st : LoopSt) : LoopSt :=
  let fetchEnd := min p.endClosed (st.cursor + p.intervalMs * (MAX_API_LIMIT - 1))
  let overlapStart := max p.start (st.cursor - OVERLAP_BARS * p.intervalMs)
  let klines := fetch overlapStart fetchEnd MAX_API_LIMIT
  if klines.length = 0 then { st with cursor := st.cursor + p.intervalMs }
  else
    let ohlcvAll := mapToOHLCV klines
    let indAll := computeIndicators sqrtQ logQ ohlcvAll
    let rowsAll := mapToRows p.seriesId klines
    let indicRowsAll := indicatorRowsOf p.seriesId ohlcvAll indAll.ema50
      indAll.ema200 indAll.rsi14 indAll.atr14 indAll.adx14 indAll.vol_ma20
      indAll.macd indAll.macd_signal indAll.macd_hist indAll.bb_sma20
      indAll.bb_upper indAll.bb_lower indAll.pct_return_1 indAll.log_return_1
    let writeRows := (rowsAll.zip indicRowsAll).filter fun q =>
      decide (q.1.open_time ≥ st.cursor)
    let candleWrite := writeRows.map (·.1)
    let indicWrite := writeRows.map (·.2)
    let store2 := (tx (fun s =>
      (if candleWrite.length > 0 then
        upsertIndicators (upsertCandles s candleWrite) indicWrite
      else s, (Except.ok () : Except Unit Unit))) p.dryRun st.store).1
    let advancedBars := candleWrite.length
    { store := store2,
      cursor := if advancedBars > 0 then
          st.cursor + (advancedBars : Int) * p.intervalMs
        else st.cursor + p.intervalMs }

/-- The while (cursor <= endClosed) loop, fuelled; fuel is spent one unit
    per iteration and never runs out when it is at least
    endClosed + 1 - cursor (each iteration advances the cursor by at least
    one positive interval). -/
def ingestLoop (fetch : Int → Int → Int → List Kline) (sqrtQ logQ : ℚ → ℚ)
    (p : IngestParams) : ℕ → LoopSt → LoopSt
  | 0, st => st
  | fuel + 1, st =>
    if st.cursor ≤ p.endClosed then
      ingestLoop fetch sqrtQ logQ p fuel (ingestStep fetch sqrtQ logQ p st)
    else st

/-- pipeline.ts: symbol.replace(/USDT$/, "") for the base asset. -/
def stripUSDT (s : String) : String :=
  if s.endsWith "USDT" then s.dropRight 4 else s

/-- pipeline.ts bootstrapSeries: intern symbol, interval and series (outside
    any transaction), then run the ingest loop from the configured start up
    to endClosed = floor(now, ms) - 1.  fetch stands for the rate-limited
    client; now for Date.now(). -/
def bootstrapSeries (fetch : Int → Int → Int → List Kline)
    (sqrtQ logQ : ℚ → ℚ) (symbol interval : String) (startDate now : Int)
    (dryRun : Option Bool) (fuel : ℕ) (st0 : Store) : Store :=
  let ms := (INTERVAL_MS interval).getD 0
  let r1 := ensureSymbol st0 symbol (stripUSDT symbol) "USDT"
  let r2 := ensureInterval r1.1 interval ms
  let r3 := ensureSeries r2.1 r1.2 r2.2
  let endClosed := floorToInterval now ms - 1
  (ingestLoop fetch sqrtQ logQ ⟨r3.2, ms, startDate, endClosed, dryRun⟩ fuel
    ⟨r3.1, startDate⟩).store

/-- pipeline.ts updateSeries: same loop, but starting from
    max(startDate, maxOpen - OVERLAP_BARS * ms) when a max open time
    exists. -/
def updateSeries (fetch : Int → Int → Int → List Kline)
    (sqrtQ logQ : ℚ → ℚ) (symbol interval : String) (startDate now : Int)
    (dryRun : Option Bool) (fuel : ℕ) (st0 : Store) : Store :=
  let ms := (INTERVAL_MS interval).getD 0
  let r1 := ensureSymbol st0 symbol (stripUSDT symbol) "USDT"
  let r2 := ensureInterval r1.1 interval ms
  let r3 := ensureSeries r2.1 r1.2 r2.2
  let maxOpen := getMaxOpenTime r3.1 r3.2
  let nowClosed := floorToInterval now ms - 1
  let start := match maxOpen with
    | none => startDate
    | some m => max startDate (m - OVERLAP_BARS * ms)
  (ingestLoop fetch sqrtQ logQ ⟨r3.2, ms, start, nowClosed, dryRun⟩ fuel
    ⟨r3.1, start⟩).store

/-! ## Repair engine (repair.ts runRepair) -/

/-- repair.ts runRepair, the gap-selection part feeding steps 1 and 2: load
    the open_times of the series ORDER BY open_time ASC and detect gaps with
    the repair findGaps.  The known_gaps registry of the store is not read
    anywhere in runRepair. -/
def repairGapSelection (st : Store) (seriesId intervalMs : Int) : List Gap :=
  let times := (st.candles.filter (fun c => c.series_id == seriesId)).map
    (·.open_time)
  findGapsRepair (times.insertionSort (· ≤ ·)) intervalMs

/-- Modelled from the spec: a detected gap is covered by the known-gaps
    registry when its missing window [startMissing, endMissing] overlaps a
    registered window of the same series. -/
def coveredByKnownGaps (st : Store) (seriesId : Int) (g : Gap) : Bool :=
  st.known_gaps.any fun w =>
    w.series_id == seriesId && decide (w.start_open_time ≤ g.endMissing)
      && decide (g.startMissing ≤ w.end_open_time)

/-- Modelled from the spec (section 4.6): the gap report, one entry per
    consecutive pair with t_i - t_{i-1} > ms, carrying
    startMissing = t_{i-1} + ms, endMissing = t_i - ms and
    missingBars = (t_i - t_{i-1}) / ms - 1 (exact division). -/
def specGaps (times : List Int) (ms : Int) : List Gap :=
  ((times.zip times.tail).filter fun p => decide (ms < p.2 - p.1)).map
    fun p => ⟨p.1 + ms, p.2 - ms, (p.2 - p.1) / ms - 1⟩

/-! ## Helper lemmas -/

theorem getD_replicate_append {α : Type} (d : α) :
    ∀ (period i : ℕ), i < period → ∀ rest : List α,
      ((List.replicate period d) ++ rest).getD i d = d
  | 0, i, h, _ => absurd h (Nat.not_lt_zero i)
  | _ + 1, 0, _, _ => rfl
  | p + 1, i + 1, h, rest =>
    getD_replicate_append d p i (Nat.lt_of_succ_lt_succ h) rest

theorem getD_map_const_none {α β : Type} :
    ∀ (l : List α) (i : ℕ),
      (l.map fun _ => (none : Option β)).getD i none = none
  | [], _ => rfl
  | _ :: _, 0 => rfl
  | _ :: t, i + 1 => getD_map_const_none t i

theorem specGaps_cons (a b : Int) (rest : List Int) (ms : Int) :
    specGaps (a :: b :: rest) ms =
      (if ms < b - a then [⟨a + ms, b - ms, (b - a) / ms - 1⟩] else [])
        ++ specGaps (b :: rest) ms := by
  by_cases h : ms < b - a <;>
    simp [specGaps, List.zip_cons_cons, List.filter_cons, h]

theorem gapAux (ms : Int) (hms : 0 < ms) :
    ∀ times : List Int, (∀ t ∈ times, ms ∣ t) →
      findGaps times ms = specGaps times ms ∧
      findGapsRepair times ms = specGaps times ms
  | [], _ => ⟨rfl, rfl⟩
  | [_], _ => ⟨rfl, rfl⟩
  | a :: b :: rest, hdvd => by
    have hab : ms ∣ (b - a) :=
      (hdvd b (by simp)).sub (hdvd a (by simp))
    obtain ⟨k, hk⟩ := hab
    have ih := gapAux ms hms (b :: rest)
      (fun t ht => hdvd t (List.mem_cons_of_mem a ht))
    have hfg : findGaps (a :: b :: rest) ms =
        (if b - a > ms then
          [⟨a + ms, b - ms, Int.fdiv (b - a) ms - 1⟩] else [])
          ++ findGaps (b :: rest) ms := rfl
    have hfgr : findGapsRepair (a :: b :: rest) ms =
        (if b - a > ms then
          (if Int.fdiv (b - a) ms - 1 ≥ MIN_GAP_BARS_TO_REPAIR then
            [⟨a + ms, b - ms, Int.fdiv (b - a) ms - 1⟩] else [])
          else [])
          ++ findGapsRepair (b :: rest) ms := rfl
    rw [hfg, hfgr, specGaps_cons, ih.1, ih.2]
    by_cases h : ms < b - a
    · have hne : ms ≠ 0 := ne_of_gt hms
      have hdivs : Int.fdiv (b - a) ms = (b - a) / ms := by
        rw [hk, Int.mul_fdiv_cancel_left k hne, Int.mul_ediv_cancel_left k hne]
      have hk2 : 1 < k := by
        have : ms * 1 < ms * k := by rw [mul_one, ← hk]; exact h
        exact lt_of_mul_lt_mul_left this (le_of_lt hms)
      have hmin : (b - a) / ms - 1 ≥ MIN_GAP_BARS_TO_REPAIR := by
        rw [hk, Int.mul_ediv_cancel_left k hne]
        unfold MIN_GAP_BARS_TO_REPAIR
        omega
      constructor
      · simp only [gt_iff_lt, h, if_true, hdivs]
      · simp only [gt_iff_lt, h, if_true, hdivs]
        rw [if_pos hmin]
    · have h2 : ¬ (b - a > ms) := h
      constructor <;> simp only [gt_iff_lt, h, h2, if_false]

/-! ## Claim theorems -/

/-- C8: for a strictly increasing open_time list of interval multiples,
    both findGaps copies (verify.ts and repair.ts) report exactly the
    consecutive pairs with t_i - t_{i-1} > ms, each as
    startMissing = t_{i-1} + ms, endMissing = t_i - ms,
    missingBars = (t_i - t_{i-1}) / ms - 1. -/
theorem findGaps_matches_spec (times : List Int) (ms : Int) (hms : 0 < ms)
    (hchain : times.Chain' (· < ·)) (hdvd : ∀ t ∈ times, ms ∣ t) :
    findGaps times ms = specGaps times ms ∧
    findGapsRepair times ms = specGaps times ms :=
  gapAux ms hms times hdvd

theorem findGaps_matches_spec_witness :
    (0 : Int) < 60000 ∧
    findGaps [0, 180000] 60000 = specGaps [0, 180000] 60000 ∧
    findGapsRepair [0, 180000] 60000 = specGaps [0, 180000] 60000 :=
  ⟨by norm_num,
    findGaps_matches_spec [0, 180000] 60000 (by norm_num)
      (by norm_num [List.chain'_cons])
      (by intro t ht
          simp only [List.mem_cons, List.not_mem_nil, or_false] at ht
          rcases ht with h | h <;> subst h <;> norm_num)⟩

/-- C6 counterexample: the Wilder RSI kernel does not return null at output
    index period: on the close vector [1, 2] with period 1, the output at
    index 1 = period is 100 (the seed RSI is emitted at i = period). -/
theorem rsiWilder_emits_at_period_cex :
    (rsiWilder [1, 2] 1).getD 1 none = some 100 := by
  norm_num [rsiWilder, rsiPoint, gainOf, lossOf]

/-- C6 amended: for every close vector and every positive period, the Wilder
    RSI kernel returns null at every output index i with
    0 ≤ i ≤ period - 1 (the first non-null output is at i = period). -/
theorem rsiWilder_null_before_period (close : List ℚ) (period : ℕ)
    (hp : 0 < period) (i : ℕ) (hi : i < period) :
    (rsiWilder close period).getD i none = none := by
  simp only [rsiWilder]
  split
  · rw [List.append_assoc]
    exact getD_replicate_append none period i hi _
  · exact getD_map_const_none close i

theorem rsiWilder_null_before_period_witness :
    0 < 14 ∧ 13 < 14 ∧
    (rsiWilder (List.replicate 15 1) 14).getD 13 none = none :=
  ⟨by norm_num, by norm_num,
    rsiWilder_null_before_period (List.replicate 15 1) 14 (by norm_num) 13
      (by norm_num)⟩

/-- C7 counterexample: with baseMs = 100, maxMs = 1000, attempt 4 and
    jitter draw 0, backoffWaitMs returns 750 (the exponential term is capped
    at maxMs before the 0.75 factor), while the claimed formula
    clamp(baseMs * 2 ^ attempt * (0.75 + u), baseMs, maxMs) yields 1000. -/
theorem backoff_clamp_order_cex :
    backoffWaitMs ⟨100, 1000, 8⟩ 4 none 0 ≠ specSleepMs ⟨100, 1000, 8⟩ 4 0 := by
  norm_num [backoffWaitMs, specSleepMs, clamp]

/-- C7 amended: for every retry configuration, attempt number and jitter
    draw u in [0, 1) (so that u / 2 ranges over [0, 0.5)), the sleep with no
    parseable Retry-After header equals
    clamp(min(maxMs, baseMs * 2 ^ attempt) * (0.75 + u / 2), baseMs, maxMs). -/
theorem backoffWaitMs_formula (retry : RetryCfg) (attempt : ℕ) (u : ℚ)
    (h0 : 0 ≤ u) (h1 : u < 1) :
    backoffWaitMs retry attempt none u =
      clamp (min retry.maxMs (retry.baseMs * 2 ^ attempt) * (3 / 4 + u / 2))
        retry.baseMs retry.maxMs := by
  unfold backoffWaitMs
  congr 1
  ring

theorem backoffWaitMs_formula_witness :
    (0 : ℚ) ≤ 0 ∧ (0 : ℚ) < 1 ∧
    backoffWaitMs ⟨100, 1000, 8⟩ 4 none 0 =
      clamp (min 1000 (100 * 2 ^ 4) * (3 / 4 + 0 / 2)) 100 1000 :=
  ⟨le_refl 0, by norm_num, backoffWaitMs_formula ⟨100, 1000, 8⟩ 4 0
    (le_refl 0) (by norm_num)⟩

/-- C5: tx runs fn inside the transaction and commits returning fn's value
    on success unless dryRun === true; rolls back (store as of BEGIN) but
    still returns the value when dryRun === true; rolls back and re-raises
    when fn throws — so the store is unchanged in the dry-run and exception
    cases. -/
theorem tx_semantics {σ α ε : Type} (fn : σ → σ × Except ε α)
    (dryRun : Option Bool) (s : σ) :
    (∀ s2 v, fn s = (s2, .ok v) → dryRun ≠ some true →
      tx fn dryRun s = (s2, .ok v)) ∧
    (∀ s2 v, fn s = (s2, .ok v) → dryRun = some true →
      tx fn dryRun s = (s, .ok v)) ∧
    (∀ s2 e, fn s = (s2, .error e) → tx fn dryRun s = (s, .error e)) := by
  refine ⟨fun s2 v h hd => ?_, fun s2 v h hd => ?_, fun s2 e h => ?_⟩
  · simp [tx, h, hd]
  · simp [tx, h, hd]
  · simp [tx, h]

theorem tx_semantics_witness :
    tx (fun n : Int => (n + 1, (Except.ok 7 : Except Unit Int))) none 0 =
      (1, Except.ok 7) :=
  (tx_semantics (fun n : Int => (n + 1, (Except.ok 7 : Except Unit Int)))
    none 0).1 1 7 rfl (by simp)

/-- C2 counterexample: with every attempt answering HTTP 400, maxRetries = 2
    makes getKlines perform 3 doReq attempts before surfacing the error
    carrying the body — the 400 is retried, not propagated after the first
    attempt. -/
theorem permanent_http_retried_cex :
    getKlinesRun (fun _ => .status 400 "Bad Request") 2 =
      (.error (.permanent 400 "Bad Request"), 3) ∧
    (getKlinesRun (fun _ => .status 400 "Bad Request") 2).2 ≠ 1 := by
  refine ⟨rfl, ?_⟩
  decide

theorem getKlinesGoAux (responses : ℕ → HttpOutcome)
    (hperm : ∀ k, ∃ c body, responses k = .status c body ∧ c ≠ 418 ∧ c ≠ 429) :
    ∀ rem a, ∃ c body, responses (a + rem) = .status c body ∧
      getKlinesGo responses a rem = (.error (.permanent c body), a + rem + 1)
  | 0, a => by
    obtain ⟨c, body, hr, h418, h429⟩ := hperm a
    refine ⟨c, body, hr, ?_⟩
    simp [getKlinesGo, doReq, hr, h418, h429]
  | rem + 1, a => by
    obtain ⟨c, body, hr, h418, h429⟩ := hperm a
    obtain ⟨c2, body2, hr2, hrun⟩ := getKlinesGoAux responses hperm rem (a + 1)
    refine ⟨c2, body2, by rw [← hr2]; ring_nf, ?_⟩
    have : getKlinesGo responses a (rem + 1) = getKlinesGo responses (a + 1) rem := by
      simp [getKlinesGo, doReq, hr, h418, h429]
    rw [this, hrun]
    ring_nf

/-- C2 amended: a non-2xx status other than 418 and 429 makes doReq throw an
    error carrying the status and response body, but getKlines retries it
    like any other failure: when every attempt fails that way the loop
    performs exactly maxRetries + 1 attempts and then surfaces the permanent
    error of the last attempt. -/
theorem permanent_http_retried_amended (responses : ℕ → HttpOutcome)
    (maxRetries : ℕ)
    (hperm : ∀ k, ∃ c body, responses k = .status c body ∧ c ≠ 418 ∧ c ≠ 429) :
    ∃ c body, responses maxRetries = .status c body ∧
      getKlinesRun responses maxRetries =
        (.error (.permanent c body), maxRetries + 1) := by
  have h := getKlinesGoAux responses hperm maxRetries 0
  simpa [getKlinesRun] using h

theorem permanent_http_retried_amended_witness :
    ∃ c body, (fun _ : ℕ => HttpOutcome.status 400 "nope") 1 =
        .status c body ∧
      getKlinesRun (fun _ => .status 400 "nope") 1 =
        (.error (.permanent c body), 2) :=
  permanent_http_retried_amended (fun _ => .status 400 "nope") 1
    (fun _ => ⟨400, "nope", rfl, by decide, by decide⟩)

/-- C10: the token bucket preserves 0 ≤ tokens ≤ capacity: it starts full at
    capacity = requestsPerMinute, refill raises tokens by elapsed * rate but
    never above capacity, a poll admits by decrementing exactly 1 only when
    at least one token is available, and every polling schedule keeps the
    invariant — tokens never goes negative and never exceeds capacity. -/
theorem token_bucket_invariant (rpm : ℚ) (hrpm : 0 ≤ rpm) :
    TokenBucket.Inv (TokenBucket.create rpm) ∧
    (∀ b : TokenBucket, ∀ delta, 0 ≤ b.refillPerMs → b.Inv →
      ((b.poll delta).1).Inv) ∧
    (∀ b : TokenBucket, ∀ delta, (b.poll delta).2 = true →
      1 ≤ (b.refill delta).tokens ∧
      (b.poll delta).1.tokens = (b.refill delta).tokens - 1) ∧
    (∀ ds, TokenBucket.Inv
      (TokenBucket.runPolls (TokenBucket.create rpm) ds)) := by
  have hrefill : ∀ b : TokenBucket, ∀ d, 0 ≤ b.refillPerMs → b.Inv →
      (b.refill d).Inv ∧ (b.refill d).capacity = b.capacity ∧
      (b.refill d).refillPerMs = b.refillPerMs := by
    intro b d hrate ⟨h0, h1⟩
    unfold TokenBucket.refill
    split
    · exact ⟨⟨h0, h1⟩, rfl, rfl⟩
    · rename_i hd
      have hd2 : 0 ≤ d := le_of_lt (lt_of_not_ge fun h => hd (by linarith))
      have hcap : 0 ≤ b.capacity := le_trans h0 h1
      refine ⟨⟨?_, ?_⟩, rfl, rfl⟩
      · exact le_min hcap (by positivity)
      · exact min_le_left _ _
  have hpoll : ∀ b : TokenBucket, ∀ d, 0 ≤ b.refillPerMs → b.Inv →
      ((b.poll d).1).Inv ∧ ((b.poll d).1).refillPerMs = b.refillPerMs := by
    intro b d hrate hinv
    obtain ⟨⟨h0, h1⟩, hcap, hrt⟩ := hrefill b d hrate hinv
    simp only [TokenBucket.poll]
    split
    · rename_i ht
      refine ⟨⟨?_, ?_⟩, hrt⟩
      · show (0 : ℚ) ≤ (b.refill d).tokens - 1
        linarith
      · show (b.refill d).tokens - 1 ≤ (b.refill d).capacity
        linarith
    · exact ⟨⟨h0, h1⟩, hrt⟩
  refine ⟨⟨hrpm, le_refl rpm⟩, fun b d hr hi => (hpoll b d hr hi).1,
    fun b d hadm => ?_, fun ds => ?_⟩
  · simp only [TokenBucket.poll] at hadm ⊢
    by_cases ht : 1 ≤ (b.refill d).tokens
    · rw [if_pos ht] at hadm ⊢
      exact ⟨ht, rfl⟩
    · rw [if_neg ht] at hadm
      simp at hadm
  · have key : ∀ ds : List ℚ, ∀ b : TokenBucket, 0 ≤ b.refillPerMs → b.Inv →
        TokenBucket.Inv (TokenBucket.runPolls b ds) := by
      intro ds
      induction ds with
      | nil => exact fun b _ h => h
      | cons d ds ih =>
        intro b hr hi
        have h := hpoll b d hr hi
        exact ih (b.poll d).1 (h.2 ▸ hr) h.1
    refine key ds (TokenBucket.create rpm) ?_ ⟨hrpm, le_refl rpm⟩
    show (0 : ℚ) ≤ rpm / 60000
    positivity

theorem token_bucket_invariant_witness :
    (0 : ℚ) ≤ 60 ∧ TokenBucket.Inv (TokenBucket.create 60) :=
  ⟨by norm_num, (token_bucket_invariant 60 (by norm_num)).1⟩

theorem ingestStep_dry_store (fetch : Int → Int → Int → List Kline)
    (sqrtQ logQ : ℚ → ℚ) (p : IngestParams) (st : LoopSt)
    (hd : p.dryRun = some true) :
    (ingestStep fetch sqrtQ logQ p st).store = st.store := by
  simp only [ingestStep]
  split
  · rfl
  · simp only [tx, hd, if_pos]

theorem ingestLoop_dry_store (fetch : Int → Int → Int → List Kline)
    (sqrtQ logQ : ℚ → ℚ) (p : IngestParams) (hd : p.dryRun = some true) :
    ∀ (fuel : ℕ) (st : LoopSt),
      (ingestLoop fetch sqrtQ logQ p fuel st).store = st.store
  | 0, _ => rfl
  | fuel + 1, st => by
    unfold ingestLoop
    split
    · rw [ingestLoop_dry_store fetch sqrtQ logQ p hd fuel _,
        ingestStep_dry_store fetch sqrtQ logQ p st hd]
    · rfl

/-- C3 counterexample: a dry-run bootstrap on the empty store does not leave
    every table empty — the symbols table gains the interned symbol row,
    because metadata interning happens outside the rolled-back
    transaction. -/
theorem dry_run_bootstrap_cex :
    (bootstrapSeries (fun _ _ _ => []) id id "BTCUSDT" "1m" 0 0 (some true) 1
      Store.empty).symbols ≠ [] := by
  decide

/-- C3 amended: running bootstrap with dry-run on an empty store leaves the
    candles, indicators, series_state and known_gaps tables empty, but the
    symbol, interval and series metadata rows are created (interning runs
    outside the per-chunk transaction and is committed even under
    dry-run). -/
theorem dry_run_bootstrap_amended (fetch : Int → Int → Int → List Kline)
    (sqrtQ logQ : ℚ → ℚ) (symbol interval : String) (startDate now : Int)
    (fuel : ℕ) :
    (bootstrapSeries fetch sqrtQ logQ symbol interval startDate now
      (some true) fuel Store.empty).candles = [] ∧
    (bootstrapSeries fetch sqrtQ logQ symbol interval startDate now
      (some true) fuel Store.empty).indicators = [] ∧
    (bootstrapSeries fetch sqrtQ logQ symbol interval startDate now
      (some true) fuel Store.empty).series_state = [] ∧
    (bootstrapSeries fetch sqrtQ logQ symbol interval startDate now
      (some true) fuel Store.empty).known_gaps = [] ∧
    (bootstrapSeries fetch sqrtQ logQ symbol interval startDate now
      (some true) fuel Store.empty).symbols =
      [⟨1, symbol, stripUSDT symbol, "USDT"⟩] ∧
    (bootstrapSeries fetch sqrtQ logQ symbol interval startDate now
      (some true) fuel Store.empty).intervals =
      [⟨1, interval, (INTERVAL_MS interval).getD 0⟩] ∧
    (bootstrapSeries fetch sqrtQ logQ symbol interval startDate now
      (some true) fuel Store.empty).series = [⟨1, 1, 1⟩] := by
  simp only [bootstrapSeries]
  rw [ingestLoop_dry_store _ _ _ _ rfl]
  simp [ensureSymbol, ensureInterval, ensureSeries, Store.empty, nextId]

/-- C9: with 0 < ms, every iteration of the ingest while-loop advances the
    cursor by at least ms (and by exactly ms when the fetch returns no
    klines), so the loop exits with cursor past endClosed after at most
    endClosed + 1 - cursor iterations: the fuelled loop with that much fuel
    ends with cursor > endClosed. -/
theorem bootstrap_loop_terminates (fetch : Int → Int → Int → List Kline)
    (sqrtQ logQ : ℚ → ℚ) (p : IngestParams) (hms : 0 < p.intervalMs) :
    (∀ st : LoopSt,
      st.cursor + p.intervalMs ≤ (ingestStep fetch sqrtQ logQ p st).cursor) ∧
    (∀ st : LoopSt,
      (fetch (max p.start (st.cursor - OVERLAP_BARS * p.intervalMs))
          (min p.endClosed (st.cursor + p.intervalMs * (MAX_API_LIMIT - 1)))
          MAX_API_LIMIT).length = 0 →
      (ingestStep fetch sqrtQ logQ p st).cursor = st.cursor + p.intervalMs) ∧
    (∀ (fuel : ℕ) (st : LoopSt), p.endClosed + 1 - st.cursor ≤ (fuel : Int) →
      p.endClosed < (ingestLoop fetch sqrtQ logQ p fuel st).cursor) := by
  have haux : ∀ (n : ℕ) (c m : Int), 0 < m → 0 < n →
      c + m ≤ c + (n : Int) * m := by
    intro n c m hm hn
    have h1 : (1 : Int) ≤ (n : Int) := by exact_mod_cast hn
    have h2 := mul_le_mul_of_nonneg_right h1 (le_of_lt hm)
    rw [one_mul] at h2
    linarith
  have hstep : ∀ st : LoopSt,
      st.cursor + p.intervalMs ≤ (ingestStep fetch sqrtQ logQ p st).cursor := by
    intro st
    simp only [ingestStep]
    split
    · simp
    · dsimp only
      split
      · rename_i hab
        exact haux _ st.cursor p.intervalMs hms hab
      · simp
  have hloop : ∀ (fuel : ℕ) (st : LoopSt),
      p.endClosed + 1 - st.cursor ≤ (fuel : Int) →
      p.endClosed < (ingestLoop fetch sqrtQ logQ p fuel st).cursor := by
    intro fuel
    induction fuel with
    | zero =>
      intro st h
      simp only [ingestLoop]
      simp only [Nat.cast_zero] at h
      linarith
    | succ fuel ih =>
      intro st h
      unfold ingestLoop
      split
      · rename_i hc
        apply ih
        have hadv := hstep st
        have hone : (1 : Int) ≤ p.intervalMs := hms
        push_cast at h ⊢
        linarith
      · rename_i hc
        exact lt_of_not_ge fun hge => hc (by linarith)
  refine ⟨hstep, fun st hempty => ?_, hloop⟩
  simp only [ingestStep, hempty]
  simp

theorem bootstrap_loop_terminates_witness :
    (0 : Int) < 60000 ∧
    (-1 : Int) <
      (ingestLoop (fun _ _ _ => []) id id ⟨1, 60000, 0, -1, none⟩ 0
        ⟨Store.empty, 0⟩).cursor :=
  ⟨by norm_num,
    (bootstrap_loop_terminates (fun _ _ _ => []) id id ⟨1, 60000, 0, -1, none⟩
      (by norm_num)).2.2 0 ⟨Store.empty, 0⟩ (by norm_num)⟩

/-- The failing input for the known-gaps claim: a 1m series with stored bars
    at 0 and 180000 (so bars 60000 and 120000 are missing) and a registry
    row declaring exactly that window as a known gap. -/
def c1Candle (t : Int) : CandleRow := ⟨1, t, 1, 2, 0, 1, 1, 1, 1, 1, 1⟩

def c1Store : Store :=
  { Store.empty with
    candles := [c1Candle 0, c1Candle 180000],
    known_gaps := [⟨1, 60000, 120000⟩] }

/-- C1: runRepair does not treat registry windows as satisfied — it never
    reads known_gaps.  On c1Store the detected gap [60000, 120000] is fully
    covered by the registered window, yet the repair gap selection still
    returns it for re-ingest, and the selection is unchanged under any
    registry contents whatsoever. -/
theorem repair_reingests_registered_gap :
    coveredByKnownGaps c1Store 1 ⟨60000, 120000, 2⟩ = true ∧
    repairGapSelection c1Store 1 60000 = [⟨60000, 120000, 2⟩] ∧
    (∀ kgs : List KnownGapRow,
      repairGapSelection { c1Store with known_gaps := kgs } 1 60000 =
        [⟨60000, 120000, 2⟩]) := by
  refine ⟨by decide, by decide, fun kgs => ?_⟩
  rfl

/-! ## The failing input for the update idempotence claim (C4).

A 1m series whose market holds closed bars at open time 0 and at open times
550 * 60000 .. 601 * 60000, with constant close 1 (so pct_return_1 is 0
wherever defined; every branch decision taken on this input is exact in
binary64, and the field exhibited below does not depend on the sqrt and log
primitives, which at this input are only ever applied to 0 and to the ratio
1 — both give 0, the values chosen for sqrtQ and logQ).  The first update
run has no max open time and starts from startDate 0, so every chunk window
includes the bar at 0 and the stored pct_return_1 at open_time 550 * 60000
is 0.  The second run starts at maxOpen - 600 * ms = 60000; its overlap
window is clamped to that start, the bar at 0 is no longer fetched, and the
row at 550 * 60000 is recomputed as the first bar of its window and
rewritten with a null return. -/

def c4Kline (i : ℕ) : Kline :=
  ⟨(i : Int) * 60000, 1, if i = 0 then 2 else 3, 0, 1, 1,
    (i : Int) * 60000 + 59999, 1, 1, 1, 1⟩

def c4Market : List Kline :=
  c4Kline 0 :: (List.range 52).map fun j => c4Kline (550 + j)

/-- The exchange: klines with openTime in [startTime, endTime], first limit
    of them, in ascending openTime order — a fixed market, so both runs see
    the same kline sequence for the same arguments. -/
def c4Fetch (s e limit : Int) : List Kline :=
  (c4Market.filter fun k =>
    decide (s ≤ k.openTime) && decide (k.openTime ≤ e)).take limit.toNat

def c4Now : Int := 602 * 60000

def c4Once : Store :=
  updateSeries c4Fetch (fun _ => 0) (fun _ => 0) "BTCUSDT" "1m" 0 c4Now
    (some false) 50 Store.empty

def c4Twice : Store :=
  updateSeries c4Fetch (fun _ => 0) (fun _ => 0) "BTCUSDT" "1m" 0 c4Now
    (some false) 50 c4Once

/-- Whether the stored pct_return_1 of the indicator row keyed
    (1, 550 * 60000) is non-null. -/
def c4Proj (st : Store) : Option Bool :=
  (st.indicators.find? fun r =>
    r.series_id == 1 && r.open_time == 33000000).map
    (fun r => r.pct_return_1.isSome)

set_option maxRecDepth 1000000
set_option maxHeartbeats 16000000

/-- C4: update is not idempotent.  With the deterministic market c4Fetch,
    one update run stores a non-null pct_return_1 at open_time 33000000, but
    the immediately following second run rewrites that row with null (its
    recomputed overlap window no longer reaches the preceding bar), leaving
    the indicators table different — the store after two runs is not
    bit-identical to the store after one. -/
theorem update_twice_not_idempotent :
    c4Proj c4Once = some true ∧ c4Proj c4Twice = some false ∧
    c4Twice ≠ c4Once := by
  have e1 : c4Proj c4Once = some true := by rfl
  have e2 : c4Proj c4Twice = some false := by rfl
  refine ⟨e1, e2, fun h => ?_⟩
  rw [h, e1] at e2
  exact Bool.noConfusion (Option.some.inj e2)

end CryptoPipeline
